import Mathlib

/-!
Shallow embedding of the zitadel eventstore push path
(`internal/eventstore/v3/push.go` fragment: `Push`, the `writeEvents`
method, the package-level `writeEvents` helper and `checkExecutionPlan`).

Backend I/O (connection acquisition, transaction begin/commit/rollback,
query execution, the unique-constraint and field-projection statements)
is modelled by a `Backend` oracle that fixes the outcome of each backend
round trip; every executed backend action is recorded in a trace so that
claims about which statements are issued, and in which order, can be
stated and proved.
-/

set_option autoImplicit false

namespace Zitadel

/-- A backend/driver error. `setupNotExecuted` marks whether
`isSetupNotExecutedError` classifies it as the "setup/function not
executed" error class. -/
structure Err where
  code : Nat
  setupNotExecuted : Bool
deriving DecidableEq, Repr

/-- A caller command (`eventstore.Command`). `payloadOK` records whether
its payload serializes into the backend encoding (the translator fails
otherwise). -/
structure Command where
  aggregateID : String
  aggregateType : String
  commandType : String
  payloadOK : Bool
deriving DecidableEq, Repr

/-- One result row of the bulk insert: the three backend-assigned
ordering fields read back per input command. -/
structure Row where
  createdAt : Nat
  sequence : Nat
  position : Int
deriving DecidableEq, Repr

/-- The concrete `*event` value: the source command carried forward plus
the three ordering fields, zero-valued until the row scan fills them. -/
structure Event where
  cmd : Command
  createdAt : Nat
  sequence : Nat
  position : Int
deriving DecidableEq, Repr

/-- Transaction isolation levels (`sql.LevelReadCommitted` etc.). -/
inductive Isolation where
  | readCommitted
  | serializable
  | levelDefault
deriving DecidableEq, Repr

/-- Backend actions issued by the push path, recorded in execution
order. -/
inductive Action where
  | acquireConn
  | probeTypeMap (registered : Bool)
  | registerTypes
  | beginTx (isolation : Isolation) (readOnly : Bool)
  | execQuery (n : Nat)
  | execUnique (n : Nat)
  | execSetMultipleModifications
  | execFields (n : Nat)
  | commit
  | rollback
  | warnCommitFailed
  | fallback (n : Nat)
deriving DecidableEq, Repr

/-- Oracle fixing the outcome of every backend round trip of one push:
`connErr` for `es.client.Conn`, `typeRegistered` for whether the
connection's `TypeMap` already has the eventstore composite type,
`registerErr` for `registerEventstoreTypes`, `beginErr` for `BeginTx`,
`queryRes` for the bulk-insert `QueryContext`, `rowsErr` for `rows.Err`,
`uniqueErr` for `handleUniqueConstraints`, `setExecErr` for the
cockroach `SET` statement, `fieldErr` for `handleFieldCommands`,
`commitErr`/`rollbackErr` for `Commit`/`Rollback`, and
`fbEvents`/`fbErr` for the result of `pushWithoutFunc`. -/
structure Backend where
  connErr : Option Err
  typeRegistered : Bool
  registerErr : Option Err
  beginErr : Option Err
  queryRes : Except Err (List Row)
  rowsErr : Option Err
  uniqueErr : Option Err
  setExecErr : Option Err
  fieldErr : Option Err
  commitErr : Option Err
  rollbackErr : Option Err
  fbEvents : Option (List Event)
  fbErr : Option Err
deriving Repr

/-- The eventstore: only the backend variant string
(`es.client.Type()`) matters to this fragment. -/
structure Eventstore where
  clientType : String
deriving DecidableEq, Repr

/-- Result of a (method) call: Go's `([]eventstore.Event, error)` pair —
`events = none` models a `nil` slice — plus the recorded backend trace.
`panicked` marks that the Go code would have panicked (index out of
range in the row scan). -/
structure WEResult where
  panicked : Bool
  events : Option (List Event)
  err : Option Err
  trace : List Action
deriving DecidableEq, Repr

/-- The translation error (`TranslationError` of the spec taxonomy). -/
def translationError : Err := ⟨100, false⟩

/-- Event placeholder built from one command: ordering fields unset. -/
def mkEvent (c : Command) : Event := ⟨c, 0, 0, 0⟩

/-- Modelled from the spec: `commandsToEvents` is not under `src/`.
Per §4.1 it converts the ordered command batch into a parallel ordered
sequence of event placeholders (ordering fields unset) plus the backend
payload, same length and order as the input, and signals a
`TranslationError` when a payload cannot be serialized. -/
def commandsToEvents (commands : List Command) :
    Except Err (List Event × List Command) :=
  if commands.all (fun c => c.payloadOK) then
    .ok (commands.map mkEvent, commands)
  else
    .error translationError

/-- Scatter one result row onto one event placeholder
(`rows.Scan(&events[i].(*event).createdAt, ...)`). -/
def applyRow (e : Event) (r : Row) : Event :=
  { e with createdAt := r.createdAt, sequence := r.sequence, position := r.position }

/-- The row-scan loop `for i := 0; rows.Next(); i++` of the
package-level `writeEvents`: row `i` is scattered onto `events[i]` with
no bounds check; a row beyond the end of the event slice is the Go
index-out-of-range panic, modelled as `none`. -/
def scanRows : List Event → List Row → Option (List Event)
  | evs, [] => some evs
  | [], _ :: _ => none
  | e :: evs, r :: rs =>
    match scanRows evs rs with
    | none => none
    | some rest => some (applyRow e r :: rest)

/-- The package-level `writeEvents(ctx, tx, commands)`: translate, run
the bulk insert (`tx.QueryContext(ctx, push2Stmt, cmds)`), scan the
result rows onto the events, then check `rows.Err()`. -/
def writeEventsTx (b : Backend) (commands : List Command) : WEResult :=
  match commandsToEvents commands with
  | .error e => ⟨false, none, some e, []⟩
  | .ok (events, cmds) =>
    match b.queryRes with
    | .error e => ⟨false, none, some e, [.execQuery cmds.length]⟩
    | .ok rows =>
      match scanRows events rows with
      | none => ⟨true, none, none, [.execQuery cmds.length]⟩
      | some evs =>
        match b.rowsErr with
        | some e => ⟨false, none, some e, [.execQuery cmds.length]⟩
        | none => ⟨false, some evs, none, [.execQuery cmds.length]⟩

/-- `checkExecutionPlan(ctx, conn)`: probe the connection's type map for
the eventstore composite type; if present return `nil`, otherwise run
`registerEventstoreTypes` (the latter is not under `src/`; modelled
from the spec §4.4: one-time registration which, on success, makes the
connection capable). Result: (error, type registered afterwards,
actions). -/
def checkExecutionPlan (b : Backend) : Option Err × Bool × List Action :=
  if b.typeRegistered then
    (none, true, [.probeTypeMap true])
  else
    match b.registerErr with
    | some e => (some e, false, [.probeTypeMap false, .registerTypes])
    | none => (none, true, [.probeTypeMap false, .registerTypes])

/-- Tail of the transaction body shared by both backend variants:
`handleFieldCommands` over the batch, then the deferred
commit-or-rollback of the `writeEvents` method. `t` is the trace
accumulated so far and `evs` the events to return on the success
path. -/
def afterFields (b : Backend) (n : Nat) (t : List Action) (evs : Option (List Event)) :
    WEResult :=
  match b.fieldErr with
  | some e => ⟨false, none, some e, t ++ [.execFields n, .rollback]⟩
  | none =>
    match b.commitErr with
    | none => ⟨false, evs, none, t ++ [.execFields n, .commit]⟩
    | some e => ⟨false, evs, some e, t ++ [.execFields n, .commit, .warnCommitFailed]⟩

/-- The part of the `writeEvents` method body that runs inside the open
transaction: inner bulk insert, `handleUniqueConstraints`, the
cockroach-only `SET enable_multiple_modifications_of_table = on`, then
`handleFieldCommands` and the deferred commit/rollback: the deferred
function rolls back when the named return error is non-nil (the
rollback error is discarded with `_ = tx.Rollback()`) and otherwise
commits, logging a warning when the commit fails — the commit error is
assigned to the named return `err`. -/
def txBody (es : Eventstore) (b : Backend) (commands : List Command) : WEResult :=
  let r := writeEventsTx b commands
  if r.panicked then r
  else
    match r.err with
    | some e => ⟨false, none, some e, r.trace ++ [.rollback]⟩
    | none =>
      match b.uniqueErr with
      | some e => ⟨false, none, some e, r.trace ++ [.execUnique commands.length, .rollback]⟩
      | none =>
        let t1 := r.trace ++ [.execUnique commands.length]
        if es.clientType = "cockroach" then
          match b.setExecErr with
          | some e => ⟨false, none, some e, t1 ++ [.execSetMultipleModifications, .rollback]⟩
          | none =>
            afterFields b commands.length (t1 ++ [.execSetMultipleModifications]) r.events
        else
          afterFields b commands.length t1 r.events

/-- The `writeEvents` method on `*Eventstore`: acquire a connection,
run `checkExecutionPlan`, begin the transaction with
`sql.LevelReadCommitted` and `ReadOnly: false`, then run the
transaction body (with the deferred commit/rollback folded in by
`txBody`). -/
def Eventstore.writeEvents (es : Eventstore) (b : Backend) (commands : List Command) :
    WEResult :=
  match b.connErr with
  | some e => ⟨false, none, some e, [.acquireConn]⟩
  | none =>
    match checkExecutionPlan b with
    | (some e, _, ts) => ⟨false, none, some e, .acquireConn :: ts⟩
    | (none, _, ts) =>
      match b.beginErr with
      | some e =>
        ⟨false, none, some e, .acquireConn :: ts ++ [.beginTx .readCommitted false]⟩
      | none =>
        let r := txBody es b commands
        { r with trace := .acquireConn :: ts ++ [.beginTx .readCommitted false] ++ r.trace }

/-- Modelled from the spec: `pushWithoutFunc` (the Fallback Executor,
§4.6) is not under `src/`. Its result is whatever the oracle fixed for
the fallback path; the trace records one fallback invocation over the
whole batch. -/
def pushWithoutFunc (b : Backend) (commands : List Command) : WEResult :=
  ⟨false, b.fbEvents, b.fbErr, [.fallback commands.length]⟩

/-- Modelled from the spec: `isSetupNotExecutedError` is not under
`src/`. Per §4.2/§7 it classifies exactly the "setup/function not
executed" error class; a `nil` error is not of that class. -/
def isSetupNotExecutedError : Option Err → Bool
  | none => false
  | some e => e.setupNotExecuted

/-- `Push`: run the primary path (`es.writeEvents`); when its error is
classified as setup-not-executed, retry the whole batch once via
`pushWithoutFunc`; otherwise return the primary result unchanged. -/
def Eventstore.Push (es : Eventstore) (b : Backend) (commands : List Command) : WEResult :=
  let r := es.writeEvents b commands
  if r.panicked then r
  else if isSetupNotExecutedError r.err then
    let f := pushWithoutFunc b commands
    { f with trace := r.trace ++ f.trace }
  else r

/-- Is an action the fallback invocation? -/
def isFallbackA : Action → Bool
  | .fallback _ => true
  | _ => false

/-- The connection after a successful probe: the type is registered. -/
def Backend.afterProbe (b : Backend) : Backend :=
  { b with typeRegistered := (checkExecutionPlan b).2.1 }

/- Concrete fixtures used by witnesses and counterexamples. -/

/-- A serializable command. -/
def cmdA : Command := ⟨"A-1", "user", "user.added", true⟩

/-- A second serializable command. -/
def cmdB : Command := ⟨"A-1", "user", "user.changed", true⟩

/-- A result row. -/
def rowA : Row := ⟨5, 1, 10⟩

/-- A second result row with larger position. -/
def rowB : Row := ⟨6, 2, 11⟩

/-- A generic (non-setup-class) backend error. -/
def errX : Err := ⟨7, false⟩

/-- The setup-not-executed error. -/
def errSetup : Err := ⟨42, true⟩

/-- An eventstore on the non-distributed backend. -/
def esPg : Eventstore := ⟨"postgres"⟩

/-- An eventstore on the distributed-SQL backend. -/
def esCr : Eventstore := ⟨"cockroach"⟩

/-- A backend oracle on which every step succeeds, returning `rows`
from the bulk insert. -/
def benign (rows : List Row) : Backend :=
  ⟨none, true, none, none, .ok rows, none, none, none, none, none, none, none, none⟩

/-- A backend on which everything succeeds except the final commit. -/
def bCommitFail : Backend := { benign [rowA] with commitErr := some errX }

/-- Actions that can be recorded between `BeginTx` and the end of the
transaction body. -/
def txAction : Action → Bool
  | .execQuery _ => true
  | .execUnique _ => true
  | .execSetMultipleModifications => true
  | .execFields _ => true
  | .commit => true
  | .rollback => true
  | .warnCommitFailed => true
  | _ => false

/-- A call ended with the transaction rolled back and the step error
`e` returned: the error is propagated unchanged, the returned event
slice is `nil`, a rollback was issued and no commit was. -/
def rolledBackWith (r : WEResult) (e : Err) : Prop :=
  r.err = some e ∧ r.events = none ∧
  Action.rollback ∈ r.trace ∧ Action.commit ∉ r.trace

end Zitadel

/-! ### Basic lemmas about the row scan and the translator -/

namespace Zitadel

theorem scanRows_eq_none_iff (evs : List Event) (rows : List Row) :
    scanRows evs rows = none ↔ evs.length < rows.length := by
  induction rows generalizing evs with
  | nil => cases evs <;> simp [scanRows]
  | cons r rs ih =>
    cases evs with
    | nil => simp [scanRows]
    | cons e es =>
      cases h : scanRows es rs with
      | none =>
        have hl := (ih es).mp h
        simp [scanRows, h, Nat.succ_lt_succ_iff, hl]
      | some rest =>
        have h2 : ¬ es.length < rs.length := by
          intro hl
          have := (ih es).mpr hl
          simp [this] at h
        simp [scanRows, h, Nat.succ_lt_succ_iff, h2]

theorem scanRows_of_length_eq :
    ∀ (evs : List Event) (rows : List Row), rows.length = evs.length →
      scanRows evs rows = some (List.zipWith applyRow evs rows) := by
  intro evs
  induction evs with
  | nil =>
    intro rows h
    cases rows with
    | nil => simp [scanRows]
    | cons r rs => simp at h
  | cons e es ih =>
    intro rows h
    cases rows with
    | nil => simp at h
    | cons r rs =>
      simp [scanRows, ih rs (by simpa using h)]

theorem map_position_zipWith :
    ∀ (evs : List Event) (rows : List Row), rows.length = evs.length →
      (List.zipWith applyRow evs rows).map Event.position = rows.map Row.position := by
  intro evs
  induction evs with
  | nil =>
    intro rows h
    cases rows with
    | nil => simp
    | cons r rs => simp at h
  | cons e es ih =>
    intro rows h
    cases rows with
    | nil => simp at h
    | cons r rs => simp [applyRow, ih rs (by simpa using h)]

theorem getElem?_zipWith {α β γ : Type} (f : α → β → γ) :
    ∀ (l1 : List α) (l2 : List β) (i : Nat) (a : α) (b : β),
      l1[i]? = some a → l2[i]? = some b → (List.zipWith f l1 l2)[i]? = some (f a b) := by
  intro l1
  induction l1 with
  | nil => intro l2 i a b h1 _; simp at h1
  | cons x xs ih =>
    intro l2 i a b h1 h2
    cases l2 with
    | nil => simp at h2
    | cons y ys =>
      cases i with
      | zero =>
        simp at h1 h2
        simp [h1, h2]
      | succ n =>
        simpa using ih ys n a b (by simpa using h1) (by simpa using h2)

theorem commandsToEvents_ok (cmds : List Command) (evs : List Event) (cs : List Command)
    (h : commandsToEvents cmds = Except.ok (evs, cs)) :
    evs = cmds.map mkEvent ∧ cs = cmds ∧ cmds.all (fun c => c.payloadOK) = true := by
  unfold commandsToEvents at h
  split at h
  · next hall =>
    simp only [Except.ok.injEq, Prod.mk.injEq] at h
    exact ⟨h.1.symm, h.2.symm, hall⟩
  · simp at h

end Zitadel

/-! ### Trace-shape lemmas -/

namespace Zitadel

theorem writeEventsTx_trace (b : Backend) (cmds : List Command) :
    (writeEventsTx b cmds).trace = [] ∨
    ∃ n, (writeEventsTx b cmds).trace = [Action.execQuery n] := by
  unfold writeEventsTx
  split
  · exact Or.inl rfl
  · split
    · exact Or.inr ⟨_, rfl⟩
    · split
      · exact Or.inr ⟨_, rfl⟩
      · split
        · exact Or.inr ⟨_, rfl⟩
        · exact Or.inr ⟨_, rfl⟩

theorem writeEventsTx_actions (b : Backend) (cmds : List Command) :
    ∀ a ∈ (writeEventsTx b cmds).trace, txAction a = true := by
  intro a ha
  rcases writeEventsTx_trace b cmds with h | ⟨n, h⟩
  · rw [h] at ha; simp at ha
  · rw [h] at ha; simp at ha; subst ha; rfl

theorem afterFields_actions (b : Backend) (n : Nat) (t : List Action)
    (evs : Option (List Event)) :
    ∀ a ∈ (afterFields b n t evs).trace, a ∈ t ∨ txAction a = true := by
  intro a ha
  unfold afterFields at ha
  split at ha
  · rcases List.mem_append.mp ha with h | h
    · exact Or.inl h
    · right; fin_cases h <;> rfl
  · split at ha <;>
    · rcases List.mem_append.mp ha with h | h
      · exact Or.inl h
      · right; fin_cases h <;> rfl

theorem txBody_actions (es : Eventstore) (b : Backend) (cmds : List Command) :
    ∀ a ∈ (txBody es b cmds).trace, txAction a = true := by
  intro a ha
  have hw := writeEventsTx_actions b cmds
  simp only [txBody] at ha
  split at ha
  · exact hw a ha
  · split at ha
    · simp only [List.mem_append, List.mem_cons, List.not_mem_nil, or_false] at ha
      rcases ha with h | h
      · exact hw a h
      · subst h; rfl
    · split at ha
      · simp only [List.mem_append, List.mem_cons, List.not_mem_nil, or_false] at ha
        rcases ha with h | h | h
        · exact hw a h
        · subst h; rfl
        · subst h; rfl
      · split at ha
        · split at ha
          · simp only [List.append_assoc, List.mem_append, List.mem_cons,
              List.not_mem_nil, or_false] at ha
            rcases ha with h | h | h | h
            · exact hw a h
            · subst h; rfl
            · subst h; rfl
            · subst h; rfl
          · rcases afterFields_actions b cmds.length _ _ a ha with h | h
            · simp only [List.append_assoc, List.mem_append, List.mem_cons,
                List.not_mem_nil, or_false] at h
              rcases h with h | h | h
              · exact hw a h
              · subst h; rfl
              · subst h; rfl
            · exact h
        · rcases afterFields_actions b cmds.length _ _ a ha with h | h
          · simp only [List.mem_append, List.mem_cons, List.not_mem_nil, or_false] at h
            rcases h with h | h
            · exact hw a h
            · subst h; rfl
          · exact h

end Zitadel

namespace Zitadel

theorem checkExecutionPlan_trace (b : Backend) :
    (checkExecutionPlan b).2.2 = [Action.probeTypeMap true] ∨
    (checkExecutionPlan b).2.2 = [Action.probeTypeMap false, Action.registerTypes] := by
  unfold checkExecutionPlan
  split
  · exact Or.inl rfl
  · split
    · exact Or.inr rfl
    · exact Or.inr rfl

theorem writeEventsES_trace (es : Eventstore) (b : Backend) (cmds : List Command) :
    (es.writeEvents b cmds).trace = [Action.acquireConn] ∨
    (es.writeEvents b cmds).trace = Action.acquireConn :: (checkExecutionPlan b).2.2 ∨
    (es.writeEvents b cmds).trace =
      Action.acquireConn :: (checkExecutionPlan b).2.2
        ++ [Action.beginTx .readCommitted false] ∨
    (es.writeEvents b cmds).trace =
      Action.acquireConn :: (checkExecutionPlan b).2.2
        ++ [Action.beginTx .readCommitted false] ++ (txBody es b cmds).trace := by
  unfold Eventstore.writeEvents
  split
  · exact Or.inl rfl
  · split
    · next e snd ts heq =>
      rw [heq]
      exact Or.inr (Or.inl rfl)
    · next snd ts heq =>
      rw [heq]
      split
      · exact Or.inr (Or.inr (Or.inl (by simp)))
      · exact Or.inr (Or.inr (Or.inr (by simp)))

theorem Push_trace (es : Eventstore) (b : Backend) (cmds : List Command) :
    (es.Push b cmds).trace = (es.writeEvents b cmds).trace ∨
    (es.Push b cmds).trace =
      (es.writeEvents b cmds).trace ++ [Action.fallback cmds.length] := by
  by_cases hp : (es.writeEvents b cmds).panicked = true
  · left; simp [Eventstore.Push, hp]
  · by_cases hs : isSetupNotExecutedError (es.writeEvents b cmds).err = true
    · right; simp [Eventstore.Push, pushWithoutFunc, hp, hs]
    · left; simp [Eventstore.Push, hp, hs]

theorem writeEventsES_actions (es : Eventstore) (b : Backend) (cmds : List Command) :
    ∀ a ∈ (es.writeEvents b cmds).trace,
      a = Action.acquireConn ∨ a = Action.probeTypeMap true ∨
      a = Action.probeTypeMap false ∨ a = Action.registerTypes ∨
      a = Action.beginTx .readCommitted false ∨ txAction a = true := by
  intro a ha
  have hplan : ∀ x ∈ (checkExecutionPlan b).2.2,
      x = Action.probeTypeMap true ∨ x = Action.probeTypeMap false ∨
      x = Action.registerTypes := by
    intro x hx
    rcases checkExecutionPlan_trace b with h | h <;> rw [h] at hx <;> simp at hx
    · exact Or.inl hx
    · rcases hx with hx | hx
      · exact Or.inr (Or.inl hx)
      · exact Or.inr (Or.inr hx)
  rcases writeEventsES_trace es b cmds with h | h | h | h <;> rw [h] at ha
  · simp at ha; subst ha; exact Or.inl rfl
  · rcases List.mem_cons.mp ha with h2 | h2
    · subst h2; exact Or.inl rfl
    · rcases hplan a h2 with h3 | h3 | h3
      · exact Or.inr (Or.inl h3)
      · exact Or.inr (Or.inr (Or.inl h3))
      · exact Or.inr (Or.inr (Or.inr (Or.inl h3)))
  · rcases List.mem_cons.mp ha with h2 | h2
    · subst h2; exact Or.inl rfl
    · rcases List.mem_append.mp h2 with h3 | h3
      · rcases hplan a h3 with h4 | h4 | h4
        · exact Or.inr (Or.inl h4)
        · exact Or.inr (Or.inr (Or.inl h4))
        · exact Or.inr (Or.inr (Or.inr (Or.inl h4)))
      · simp at h3; subst h3
        exact Or.inr (Or.inr (Or.inr (Or.inr (Or.inl rfl))))
  · rcases List.mem_cons.mp ha with h2 | h2
    · subst h2; exact Or.inl rfl
    · rcases List.mem_append.mp h2 with h3 | h3
      · rcases List.mem_append.mp h3 with h4 | h4
        · rcases hplan a h4 with h5 | h5 | h5
          · exact Or.inr (Or.inl h5)
          · exact Or.inr (Or.inr (Or.inl h5))
          · exact Or.inr (Or.inr (Or.inr (Or.inl h5)))
        · simp at h4; subst h4
          exact Or.inr (Or.inr (Or.inr (Or.inr (Or.inl rfl))))
      · exact Or.inr (Or.inr (Or.inr (Or.inr (Or.inr (txBody_actions es b cmds a h3)))))

end Zitadel

namespace Zitadel

theorem writeEventsTx_panicked (b : Backend) (cmds : List Command) :
    (writeEventsTx b cmds).panicked = true → (writeEventsTx b cmds).err = none := by
  unfold writeEventsTx
  split
  · simp
  · split
    · simp
    · split
      · simp
      · split <;> simp

theorem afterFields_panicked (b : Backend) (n : Nat) (t : List Action)
    (evs : Option (List Event)) : (afterFields b n t evs).panicked = false := by
  unfold afterFields
  split
  · rfl
  · split <;> rfl

theorem afterFields_trace (b : Backend) (n : Nat) (t : List Action)
    (evs : Option (List Event)) :
    (afterFields b n t evs).trace = t ++ [Action.execFields n, Action.rollback] ∨
    (afterFields b n t evs).trace = t ++ [Action.execFields n, Action.commit] ∨
    (afterFields b n t evs).trace =
      t ++ [Action.execFields n, Action.commit, Action.warnCommitFailed] := by
  unfold afterFields
  split
  · exact Or.inl rfl
  · split
    · exact Or.inr (Or.inl rfl)
    · exact Or.inr (Or.inr rfl)

theorem txBody_panicked (es : Eventstore) (b : Backend) (cmds : List Command) :
    (txBody es b cmds).panicked = true → (txBody es b cmds).err = none := by
  simp only [txBody]
  repeat' split
  all_goals
    first
      | exact writeEventsTx_panicked b cmds
      | simp [afterFields_panicked]

theorem writeEventsES_panicked (es : Eventstore) (b : Backend) (cmds : List Command) :
    (es.writeEvents b cmds).panicked = true → (es.writeEvents b cmds).err = none := by
  unfold Eventstore.writeEvents
  split
  · simp
  · split
    · simp
    · split
      · simp
      · simpa using txBody_panicked es b cmds

theorem execSet_notin_writeEventsTx (b : Backend) (cmds : List Command) :
    Action.execSetMultipleModifications ∉ (writeEventsTx b cmds).trace := by
  intro h
  rcases writeEventsTx_trace b cmds with h2 | ⟨n, h2⟩ <;> rw [h2] at h <;> simp at h

theorem execSet_txBody_cockroach (es : Eventstore) (b : Backend) (cmds : List Command)
    (h : Action.execSetMultipleModifications ∈ (txBody es b cmds).trace) :
    es.clientType = "cockroach" := by
  by_contra hne
  simp only [txBody, hne, if_false] at h
  split at h
  · exact execSet_notin_writeEventsTx b cmds h
  · split at h
    · simp only [List.mem_append, List.mem_cons, List.not_mem_nil, or_false] at h
      rcases h with h | h
      · exact execSet_notin_writeEventsTx b cmds h
      · simp at h
    · split at h
      · simp only [List.mem_append, List.mem_cons, List.not_mem_nil, or_false] at h
        rcases h with h | h | h
        · exact execSet_notin_writeEventsTx b cmds h
        · simp at h
        · simp at h
      · rcases afterFields_trace b cmds.length _ _ with h2 | h2 | h2 <;>
          rw [h2] at h <;>
          simp only [List.append_assoc, List.mem_append, List.mem_cons,
            List.not_mem_nil, or_false] at h <;>
          rcases h with h | h <;>
          first
            | exact execSet_notin_writeEventsTx b cmds h
            | simp at h

theorem fallback_notin_writeEventsES (es : Eventstore) (b : Backend)
    (cmds : List Command) (n : Nat) :
    Action.fallback n ∉ (es.writeEvents b cmds).trace := by
  intro h
  rcases writeEventsES_actions es b cmds _ h with h2 | h2 | h2 | h2 | h2 | h2 <;>
    simp [txAction] at h2

theorem countP_fallback_writeEventsES (es : Eventstore) (b : Backend)
    (cmds : List Command) :
    (es.writeEvents b cmds).trace.countP isFallbackA = 0 := by
  rw [List.countP_eq_zero]
  intro a ha
  rcases writeEventsES_actions es b cmds a ha with h2 | h2 | h2 | h2 | h2 | h2 <;>
    first
      | (subst h2; simp [isFallbackA])
      | (cases a <;> simp [isFallbackA] <;> simp [txAction] at h2)

end Zitadel

namespace Zitadel

theorem map_cmd_zipWith :
    ∀ (cmds : List Command) (rows : List Row), rows.length = cmds.length →
      (List.zipWith applyRow (cmds.map mkEvent) rows).map Event.cmd = cmds := by
  intro cmds
  induction cmds with
  | nil => intro rows h; simp
  | cons c cs ih =>
    intro rows h
    cases rows with
    | nil => simp at h
    | cons r rs => simp [applyRow, mkEvent, ih rs (by simpa using h)]

theorem registerTypes_notin_push (es : Eventstore) (b : Backend) (cmds : List Command)
    (hreg : b.typeRegistered = true) :
    Action.registerTypes ∉ (es.Push b cmds).trace := by
  intro h
  have hplan : (checkExecutionPlan b).2.2 = [Action.probeTypeMap true] := by
    unfold checkExecutionPlan
    rw [hreg]
    simp
  have hprim : Action.registerTypes ∉ (es.writeEvents b cmds).trace := by
    intro h2
    rcases writeEventsES_trace es b cmds with h3 | h3 | h3 | h3 <;> rw [h3] at h2
    · simp at h2
    · rw [hplan] at h2; simp at h2
    · rw [hplan] at h2; simp at h2
    · rw [hplan] at h2
      simp at h2
      exact absurd (txBody_actions es b cmds _ h2) (by simp [txAction])
  rcases Push_trace es b cmds with h3 | h3 <;> rw [h3] at h
  · exact hprim h
  · rcases List.mem_append.mp h with h4 | h4
    · exact hprim h4
    · simp at h4

end Zitadel

/-! ### Claims -/

namespace Zitadel

/-- Claim C9: the row-scan step indexes the event slice by the row
counter without a bounds check (in the embedding the type assertion to
the concrete event cannot fail, since `commandsToEvents` produces the
concrete event placeholders). Given that `commandsToEvents` succeeded,
the event slice has the same length as the command slice, and the scan
panics exactly when the backend returns more rows than there are
commands: it is panic-free precisely under the precondition that at
most as many rows as commands come back. -/
theorem C9_scan_panic_freedom (cmds : List Command) (evs : List Event)
    (cs : List Command) (rows : List Row)
    (h : commandsToEvents cmds = Except.ok (evs, cs)) :
    evs.length = cmds.length ∧
    (scanRows evs rows = none ↔ cmds.length < rows.length) ∧
    (rows.length ≤ cmds.length → (scanRows evs rows).isSome = true) := by
  obtain ⟨hevs, hcs, hall⟩ := commandsToEvents_ok cmds evs cs h
  subst hevs
  refine ⟨by simp, ?_, ?_⟩
  · rw [scanRows_eq_none_iff]; simp
  · intro hle
    rcases hs : scanRows (cmds.map mkEvent) rows with _ | v
    · rw [scanRows_eq_none_iff] at hs
      simp at hs
      omega
    · rfl

/-- Witness for C9 at a concrete input: one command, two result rows —
the out-of-bounds case, where the scan indeed panics. -/
theorem C9_witness :
    [mkEvent cmdA].length = [cmdA].length ∧
    (scanRows [mkEvent cmdA] [rowA, rowB] = none ↔
      [cmdA].length < [rowA, rowB].length) ∧
    ([rowA, rowB].length ≤ [cmdA].length →
      (scanRows [mkEvent cmdA] [rowA, rowB]).isSome = true) :=
  C9_scan_panic_freedom [cmdA] [mkEvent cmdA] [cmdA] [rowA, rowB] (by rfl)

/-- Claim C3: the fallback append path appears at most once in any
`Push` trace; it is taken exactly when the primary path's error is
classified as the setup-not-executed error, and when the primary error
is not so classified `Push` returns the primary result unchanged. -/
theorem C3_fallback_once (es : Eventstore) (b : Backend) (cmds : List Command) :
    (es.Push b cmds).trace.countP isFallbackA ≤ 1 ∧
    ((es.Push b cmds).trace.countP isFallbackA =
      if isSetupNotExecutedError (es.writeEvents b cmds).err = true then 1 else 0) ∧
    (isSetupNotExecutedError (es.writeEvents b cmds).err = false →
      es.Push b cmds = es.writeEvents b cmds) := by
  have h0 := countP_fallback_writeEventsES es b cmds
  have hmain : (es.Push b cmds).trace.countP isFallbackA =
      if isSetupNotExecutedError (es.writeEvents b cmds).err = true then 1 else 0 := by
    by_cases hp : (es.writeEvents b cmds).panicked = true
    · have herr := writeEventsES_panicked es b cmds hp
      simp [Eventstore.Push, hp, herr, isSetupNotExecutedError, h0]
    · by_cases hs : isSetupNotExecutedError (es.writeEvents b cmds).err = true
      · simp [Eventstore.Push, pushWithoutFunc, hp, hs, List.countP_append,
          List.countP_cons, h0, isFallbackA]
      · simp [Eventstore.Push, hp, hs, h0]
  refine ⟨?_, hmain, ?_⟩
  · rw [hmain]; split <;> omega
  · intro hs
    by_cases hp : (es.writeEvents b cmds).panicked = true
    · simp [Eventstore.Push, hp]
    · simp [Eventstore.Push, hp, hs]

/-- Witness for C3 at a concrete input: a benign backend, where the
primary error is not setup-classified and `Push` equals the primary
result. -/
theorem C3_witness :
    (esPg.Push (benign [rowA]) [cmdA]).trace.countP isFallbackA ≤ 1 ∧
    esPg.Push (benign [rowA]) [cmdA] = esPg.writeEvents (benign [rowA]) [cmdA] :=
  ⟨(C3_fallback_once esPg (benign [rowA]) [cmdA]).1,
    (C3_fallback_once esPg (benign [rowA]) [cmdA]).2.2 (by decide)⟩

end Zitadel

namespace Zitadel

/-- Claim C2 counterexample: pushing the empty batch against a backend
on which every step succeeds does return an empty event sequence with
no error, but the bulk-insert statement IS executed (with the empty
payload): `execQuery 0` is in the trace, refuting "the backend
bulk-insert statement is not executed at all" — the code has no
empty-batch short circuit before `tx.QueryContext`. -/
theorem C2_counterexample :
    (esPg.Push (benign []) []).events = some [] ∧
    (esPg.Push (benign []) []).err = none ∧
    Action.execQuery 0 ∈ (esPg.Push (benign []) []).trace := by decide

/-- Claim C2 (amended): for the empty batch, `Push` returns an empty
event sequence with no error provided the backend steps succeed, but
the backend is written to: a transaction is begun and the bulk-insert
statement is executed with the empty payload. -/
theorem C2_empty_batch (es : Eventstore) (b : Backend)
    (hconn : b.connErr = none) (hreg : b.typeRegistered = true)
    (hbegin : b.beginErr = none) (hq : b.queryRes = Except.ok [])
    (hre : b.rowsErr = none) (hu : b.uniqueErr = none)
    (hset : es.clientType = "cockroach" → b.setExecErr = none)
    (hf : b.fieldErr = none) (hcm : b.commitErr = none) :
    (es.Push b []).events = some [] ∧ (es.Push b []).err = none ∧
    Action.execQuery 0 ∈ (es.Push b []).trace ∧
    Action.beginTx .readCommitted false ∈ (es.Push b []).trace := by
  by_cases hcr : es.clientType = "cockroach"
  · simp [Eventstore.Push, Eventstore.writeEvents, txBody, writeEventsTx, afterFields,
      checkExecutionPlan, commandsToEvents, scanRows, isSetupNotExecutedError,
      hconn, hreg, hbegin, hq, hre, hu, hf, hcm, hcr, hset hcr]
  · simp [Eventstore.Push, Eventstore.writeEvents, txBody, writeEventsTx, afterFields,
      checkExecutionPlan, commandsToEvents, scanRows, isSetupNotExecutedError,
      hconn, hreg, hbegin, hq, hre, hu, hf, hcm, hcr]

/-- Witness for C2 (amended) at a concrete input. -/
theorem C2_witness :
    (esPg.Push (benign []) []).events = some [] ∧
    (esPg.Push (benign []) []).err = none ∧
    Action.execQuery 0 ∈ (esPg.Push (benign []) []).trace ∧
    Action.beginTx .readCommitted false ∈ (esPg.Push (benign []) []).trace :=
  C2_empty_batch esPg (benign []) rfl rfl rfl rfl rfl rfl
    (fun h => by simp [esPg] at h) rfl rfl

end Zitadel

namespace Zitadel

/-- Claim C1 counterexample: with every step succeeding except the
final commit, the commit error is NOT swallowed: `Push` returns the
commit error (the returned error is `some errX`, not `nil`), together
with the populated events, while the warning is logged. The deferred
function assigns `err = tx.Commit()` to the named return value, so the
error propagates to the caller. -/
theorem C1_counterexample :
    (esPg.Push bCommitFail [cmdA]).err = some errX ∧
    (esPg.Push bCommitFail [cmdA]).err ≠ none ∧
    Action.warnCommitFailed ∈ (esPg.Push bCommitFail [cmdA]).trace ∧
    Action.commit ∈ (esPg.Push bCommitFail [cmdA]).trace := by decide

/-- Claim C1 (amended): if the transaction commit fails after the
batched insert, unique-constraint handling and field-projection steps
all succeeded, the commit error is logged as a warning AND returned to
the caller: `Push` returns the commit error (with the populated
events), not `nil`. -/
theorem C1_commit_error_returned (es : Eventstore) (b : Backend)
    (cmds : List Command) (rows : List Row) (e : Err)
    (hconn : b.connErr = none) (hreg : b.typeRegistered = true)
    (hbegin : b.beginErr = none)
    (hser : cmds.all (fun c => c.payloadOK) = true)
    (hq : b.queryRes = Except.ok rows) (hlen : rows.length = cmds.length)
    (hre : b.rowsErr = none) (hu : b.uniqueErr = none)
    (hset : es.clientType = "cockroach" → b.setExecErr = none)
    (hf : b.fieldErr = none) (hcm : b.commitErr = some e)
    (hns : e.setupNotExecuted = false) :
    (es.Push b cmds).err = some e ∧
    Action.warnCommitFailed ∈ (es.Push b cmds).trace ∧
    (es.Push b cmds).events = some (List.zipWith applyRow (cmds.map mkEvent) rows) := by
  have hscan : scanRows (cmds.map mkEvent) rows =
      some (List.zipWith applyRow (cmds.map mkEvent) rows) :=
    scanRows_of_length_eq _ _ (by simpa using hlen)
  by_cases hcr : es.clientType = "cockroach"
  · simp [Eventstore.Push, Eventstore.writeEvents, txBody, writeEventsTx, afterFields,
      checkExecutionPlan, commandsToEvents, isSetupNotExecutedError,
      hconn, hreg, hbegin, hser, hq, hre, hu, hf, hcm, hcr, hset hcr, hscan, hns]
  · simp [Eventstore.Push, Eventstore.writeEvents, txBody, writeEventsTx, afterFields,
      checkExecutionPlan, commandsToEvents, isSetupNotExecutedError,
      hconn, hreg, hbegin, hser, hq, hre, hu, hf, hcm, hcr, hscan, hns]

/-- Witness for C1 (amended) at a concrete input. -/
theorem C1_witness :
    (esPg.Push bCommitFail [cmdA]).err = some errX ∧
    Action.warnCommitFailed ∈ (esPg.Push bCommitFail [cmdA]).trace ∧
    (esPg.Push bCommitFail [cmdA]).events =
      some (List.zipWith applyRow ([cmdA].map mkEvent) [rowA]) :=
  C1_commit_error_returned esPg bCommitFail [cmdA] [rowA] errX rfl rfl rfl rfl rfl rfl
    rfl rfl (fun h => by simp [esPg] at h) rfl rfl rfl

end Zitadel

namespace Zitadel

/-- Claim C10: when the deferred commit fails after all steps
succeeded, the `writeEvents` method returns the fully populated,
non-empty event slice together with the non-nil commit error; no
rollback is issued on that path; and (when the commit error is not
setup-classified) `Push` hands exactly that pair to its caller. -/
theorem C10_commit_error_with_events (es : Eventstore) (b : Backend)
    (cmds : List Command) (rows : List Row) (e : Err)
    (hconn : b.connErr = none) (hreg : b.typeRegistered = true)
    (hbegin : b.beginErr = none)
    (hser : cmds.all (fun c => c.payloadOK) = true)
    (hq : b.queryRes = Except.ok rows) (hlen : rows.length = cmds.length)
    (hre : b.rowsErr = none) (hu : b.uniqueErr = none)
    (hset : es.clientType = "cockroach" → b.setExecErr = none)
    (hf : b.fieldErr = none) (hcm : b.commitErr = some e)
    (hns : e.setupNotExecuted = false) (hne : cmds ≠ []) :
    (es.writeEvents b cmds).events =
      some (List.zipWith applyRow (cmds.map mkEvent) rows) ∧
    (es.writeEvents b cmds).err = some e ∧
    Action.rollback ∉ (es.writeEvents b cmds).trace ∧
    List.zipWith applyRow (cmds.map mkEvent) rows ≠ [] ∧
    es.Push b cmds = es.writeEvents b cmds := by
  have hscan : scanRows (cmds.map mkEvent) rows =
      some (List.zipWith applyRow (cmds.map mkEvent) rows) :=
    scanRows_of_length_eq _ _ (by simpa using hlen)
  have hzne : List.zipWith applyRow (cmds.map mkEvent) rows ≠ [] := by
    have : (List.zipWith applyRow (cmds.map mkEvent) rows).length = cmds.length := by
      simp [List.length_zipWith, hlen]
    intro hz
    rw [hz] at this
    exact hne (List.length_eq_zero.mp this.symm)
  by_cases hcr : es.clientType = "cockroach"
  · refine ⟨?_, ?_, ?_, hzne, ?_⟩ <;>
      simp [Eventstore.Push, Eventstore.writeEvents, txBody, writeEventsTx, afterFields,
        checkExecutionPlan, commandsToEvents, isSetupNotExecutedError,
        hconn, hreg, hbegin, hser, hq, hre, hu, hf, hcm, hcr, hset hcr, hscan, hns]
  · refine ⟨?_, ?_, ?_, hzne, ?_⟩ <;>
      simp [Eventstore.Push, Eventstore.writeEvents, txBody, writeEventsTx, afterFields,
        checkExecutionPlan, commandsToEvents, isSetupNotExecutedError,
        hconn, hreg, hbegin, hser, hq, hre, hu, hf, hcm, hcr, hscan, hns]

/-- Witness for C10 at a concrete input. -/
theorem C10_witness :
    (esPg.writeEvents bCommitFail [cmdA]).events =
      some (List.zipWith applyRow ([cmdA].map mkEvent) [rowA]) ∧
    (esPg.writeEvents bCommitFail [cmdA]).err = some errX ∧
    Action.rollback ∉ (esPg.writeEvents bCommitFail [cmdA]).trace ∧
    List.zipWith applyRow ([cmdA].map mkEvent) [rowA] ≠ [] ∧
    esPg.Push bCommitFail [cmdA] = esPg.writeEvents bCommitFail [cmdA] :=
  C10_commit_error_with_events esPg bCommitFail [cmdA] [rowA] errX rfl rfl rfl rfl rfl
    rfl rfl rfl (fun h => by simp [esPg] at h) rfl rfl rfl (by decide)

end Zitadel

namespace Zitadel

/-- Claim C5: any error from the batched insert (query or row
iteration), the unique-constraint step, the cockroach accommodation
statement, or the field-projection step makes `writeEvents` roll the
transaction back and return that error unchanged with a `nil` event
slice, and no commit happens; the rollback outcome `rbe` is arbitrary —
the code discards it (`_ = tx.Rollback()`), so the conclusion holds for
every value of the rollback error. -/
theorem C5_step_error_rollback (es : Eventstore) (b : Backend)
    (cmds : List Command) (e : Err) (rbe : Option Err)
    (hconn : b.connErr = none) (hreg : b.typeRegistered = true)
    (hbegin : b.beginErr = none)
    (hser : cmds.all (fun c => c.payloadOK) = true) :
    (b.queryRes = Except.error e →
      rolledBackWith (es.writeEvents { b with rollbackErr := rbe } cmds) e) ∧
    (∀ rows, b.queryRes = Except.ok rows → rows.length = cmds.length →
      b.rowsErr = some e →
      rolledBackWith (es.writeEvents { b with rollbackErr := rbe } cmds) e) ∧
    (∀ rows, b.queryRes = Except.ok rows → rows.length = cmds.length →
      b.rowsErr = none → b.uniqueErr = some e →
      rolledBackWith (es.writeEvents { b with rollbackErr := rbe } cmds) e) ∧
    (∀ rows, b.queryRes = Except.ok rows → rows.length = cmds.length →
      b.rowsErr = none → b.uniqueErr = none →
      es.clientType = "cockroach" → b.setExecErr = some e →
      rolledBackWith (es.writeEvents { b with rollbackErr := rbe } cmds) e) ∧
    (∀ rows, b.queryRes = Except.ok rows → rows.length = cmds.length →
      b.rowsErr = none → b.uniqueErr = none →
      (es.clientType = "cockroach" → b.setExecErr = none) →
      b.fieldErr = some e →
      rolledBackWith (es.writeEvents { b with rollbackErr := rbe } cmds) e) := by
  refine ⟨?_, ?_, ?_, ?_, ?_⟩
  · intro hqe
    simp [rolledBackWith, Eventstore.writeEvents, txBody, writeEventsTx,
      checkExecutionPlan, commandsToEvents, hconn, hreg, hbegin, hser, hqe]
  · intro rows hq hlen hre
    have hscan : scanRows (cmds.map mkEvent) rows =
        some (List.zipWith applyRow (cmds.map mkEvent) rows) :=
      scanRows_of_length_eq _ _ (by simpa using hlen)
    simp [rolledBackWith, Eventstore.writeEvents, txBody, writeEventsTx,
      checkExecutionPlan, commandsToEvents, hconn, hreg, hbegin, hser, hq, hre, hscan]
  · intro rows hq hlen hre hu
    have hscan : scanRows (cmds.map mkEvent) rows =
        some (List.zipWith applyRow (cmds.map mkEvent) rows) :=
      scanRows_of_length_eq _ _ (by simpa using hlen)
    simp [rolledBackWith, Eventstore.writeEvents, txBody, writeEventsTx,
      checkExecutionPlan, commandsToEvents, hconn, hreg, hbegin, hser, hq, hre, hu, hscan]
  · intro rows hq hlen hre hu hcr hse
    have hscan : scanRows (cmds.map mkEvent) rows =
        some (List.zipWith applyRow (cmds.map mkEvent) rows) :=
      scanRows_of_length_eq _ _ (by simpa using hlen)
    simp [rolledBackWith, Eventstore.writeEvents, txBody, writeEventsTx,
      checkExecutionPlan, commandsToEvents, hconn, hreg, hbegin, hser, hq, hre, hu,
      hcr, hse, hscan]
  · intro rows hq hlen hre hu hset hf
    have hscan : scanRows (cmds.map mkEvent) rows =
        some (List.zipWith applyRow (cmds.map mkEvent) rows) :=
      scanRows_of_length_eq _ _ (by simpa using hlen)
    by_cases hcr : es.clientType = "cockroach"
    · simp [rolledBackWith, Eventstore.writeEvents, txBody, writeEventsTx, afterFields,
        checkExecutionPlan, commandsToEvents, hconn, hreg, hbegin, hser, hq, hre, hu,
        hcr, hset hcr, hf, hscan]
    · simp [rolledBackWith, Eventstore.writeEvents, txBody, writeEventsTx, afterFields,
        checkExecutionPlan, commandsToEvents, hconn, hreg, hbegin, hser, hq, hre, hu,
        hcr, hf, hscan]

/-- Witness for C5: a unique-constraint error at a concrete input, with
a failing rollback (`rollbackErr = some errSetup`) — the step error is
still the one returned. -/
theorem C5_witness :
    rolledBackWith
      (esPg.writeEvents
        { { benign [rowA] with uniqueErr := some errX } with
            rollbackErr := some errSetup } [cmdA]) errX :=
  (C5_step_error_rollback esPg { benign [rowA] with uniqueErr := some errX }
      [cmdA] errX (some errSetup) rfl rfl rfl rfl).2.2.1 [rowA] rfl rfl rfl rfl

end Zitadel

namespace Zitadel

/-- Claim C4: on a successful push of N commands (backend returning, as
per the wire contract, one row per input command, with strictly
increasing positions), the returned event sequence has exactly N
events, carries the input commands in their original order, the i-th
result row is scattered onto the i-th event placeholder, and the
positions are strictly increasing in submission order. -/
theorem C4_push_success (es : Eventstore) (b : Backend) (cmds : List Command)
    (rows : List Row)
    (hconn : b.connErr = none) (hreg : b.typeRegistered = true)
    (hbegin : b.beginErr = none)
    (hser : cmds.all (fun c => c.payloadOK) = true)
    (hq : b.queryRes = Except.ok rows) (hlen : rows.length = cmds.length)
    (hre : b.rowsErr = none) (hu : b.uniqueErr = none)
    (hset : es.clientType = "cockroach" → b.setExecErr = none)
    (hf : b.fieldErr = none) (hcm : b.commitErr = none)
    (hpos : (rows.map Row.position).Pairwise (fun p q : Int => p < q)) :
    (es.Push b cmds).err = none ∧
    (es.Push b cmds).events = some (List.zipWith applyRow (cmds.map mkEvent) rows) ∧
    (List.zipWith applyRow (cmds.map mkEvent) rows).length = cmds.length ∧
    (List.zipWith applyRow (cmds.map mkEvent) rows).map Event.cmd = cmds ∧
    (∀ (i : Nat) (c : Command) (r : Row), cmds[i]? = some c → rows[i]? = some r →
      (List.zipWith applyRow (cmds.map mkEvent) rows)[i]? =
        some (applyRow (mkEvent c) r)) ∧
    ((List.zipWith applyRow (cmds.map mkEvent) rows).map Event.position).Pairwise
      (fun p q : Int => p < q) := by
  have hscan : scanRows (cmds.map mkEvent) rows =
      some (List.zipWith applyRow (cmds.map mkEvent) rows) :=
    scanRows_of_length_eq _ _ (by simpa using hlen)
  have hres : (es.Push b cmds).err = none ∧
      (es.Push b cmds).events = some (List.zipWith applyRow (cmds.map mkEvent) rows) := by
    by_cases hcr : es.clientType = "cockroach"
    · constructor <;>
        simp [Eventstore.Push, Eventstore.writeEvents, txBody, writeEventsTx, afterFields,
          checkExecutionPlan, commandsToEvents, isSetupNotExecutedError,
          hconn, hreg, hbegin, hser, hq, hre, hu, hf, hcm, hcr, hset hcr, hscan]
    · constructor <;>
        simp [Eventstore.Push, Eventstore.writeEvents, txBody, writeEventsTx, afterFields,
          checkExecutionPlan, commandsToEvents, isSetupNotExecutedError,
          hconn, hreg, hbegin, hser, hq, hre, hu, hf, hcm, hcr, hscan]
  refine ⟨hres.1, hres.2, ?_, map_cmd_zipWith cmds rows hlen, ?_, ?_⟩
  · simp [List.length_zipWith, hlen]
  · intro i c r h1 h2
    exact getElem?_zipWith applyRow (cmds.map mkEvent) rows i (mkEvent c) r
      (by simp [List.getElem?_map, h1]) h2
  · rw [map_position_zipWith (cmds.map mkEvent) rows (by simpa using hlen)]
    exact hpos

/-- Witness for C4 at a concrete input: two commands, two rows with
strictly increasing positions. -/
theorem C4_witness :
    (esPg.Push (benign [rowA, rowB]) [cmdA, cmdB]).err = none ∧
    (esPg.Push (benign [rowA, rowB]) [cmdA, cmdB]).events =
      some (List.zipWith applyRow ([cmdA, cmdB].map mkEvent) [rowA, rowB]) ∧
    (List.zipWith applyRow ([cmdA, cmdB].map mkEvent) [rowA, rowB]).length =
      [cmdA, cmdB].length ∧
    (List.zipWith applyRow ([cmdA, cmdB].map mkEvent) [rowA, rowB]).map Event.cmd =
      [cmdA, cmdB] ∧
    (∀ (i : Nat) (c : Command) (r : Row),
      [cmdA, cmdB][i]? = some c → [rowA, rowB][i]? = some r →
      (List.zipWith applyRow ([cmdA, cmdB].map mkEvent) [rowA, rowB])[i]? =
        some (applyRow (mkEvent c) r)) ∧
    ((List.zipWith applyRow ([cmdA, cmdB].map mkEvent) [rowA, rowB]).map
      Event.position).Pairwise (fun p q : Int => p < q) :=
  C4_push_success esPg (benign [rowA, rowB]) [cmdA, cmdB] [rowA, rowB]
    rfl rfl rfl rfl rfl rfl rfl rfl (fun h => by simp [esPg] at h) rfl rfl (by decide)

end Zitadel

namespace Zitadel

theorem beginTx_in_writeEventsES (es : Eventstore) (b : Backend) (cmds : List Command)
    (iso : Isolation) (ro : Bool)
    (h : Action.beginTx iso ro ∈ (es.writeEvents b cmds).trace) :
    iso = Isolation.readCommitted ∧ ro = false := by
  rcases writeEventsES_actions es b cmds _ h with h2 | h2 | h2 | h2 | h2 | h2
  · simp at h2
  · simp at h2
  · simp at h2
  · simp at h2
  · injection h2 with h3 h4
    exact ⟨h3, h4⟩
  · simp [txAction] at h2

/-- Claim C7: the session-scoped
`SET enable_multiple_modifications_of_table = on` statement is issued
if and only if the backend type is "cockroach": on any run of `Push`
against a non-cockroach backend the statement never appears, and on a
benign cockroach run it appears inside the transaction, after the
unique-constraint step and before the field-projection step (full
trace shown); a benign non-cockroach run produces the same trace
without it. -/
theorem C7_cockroach_accommodation (es : Eventstore) (b : Backend)
    (cmds : List Command) (rows : List Row)
    (hconn : b.connErr = none) (hreg : b.typeRegistered = true)
    (hbegin : b.beginErr = none)
    (hser : cmds.all (fun c => c.payloadOK) = true)
    (hq : b.queryRes = Except.ok rows) (hlen : rows.length = cmds.length)
    (hre : b.rowsErr = none) (hu : b.uniqueErr = none)
    (hse : b.setExecErr = none) (hf : b.fieldErr = none)
    (hcm : b.commitErr = none) :
    (∀ (b2 : Backend) (cmds2 : List Command), es.clientType ≠ "cockroach" →
      Action.execSetMultipleModifications ∉ (es.Push b2 cmds2).trace) ∧
    (es.clientType = "cockroach" →
      (es.writeEvents b cmds).trace =
        [Action.acquireConn, Action.probeTypeMap true,
         Action.beginTx .readCommitted false, Action.execQuery cmds.length,
         Action.execUnique cmds.length, Action.execSetMultipleModifications,
         Action.execFields cmds.length, Action.commit]) ∧
    (es.clientType ≠ "cockroach" →
      (es.writeEvents b cmds).trace =
        [Action.acquireConn, Action.probeTypeMap true,
         Action.beginTx .readCommitted false, Action.execQuery cmds.length,
         Action.execUnique cmds.length,
         Action.execFields cmds.length, Action.commit]) := by
  have hscan : scanRows (cmds.map mkEvent) rows =
      some (List.zipWith applyRow (cmds.map mkEvent) rows) :=
    scanRows_of_length_eq _ _ (by simpa using hlen)
  refine ⟨?_, ?_, ?_⟩
  · intro b2 cmds2 hne h
    have hprim : Action.execSetMultipleModifications ∉ (es.writeEvents b2 cmds2).trace := by
      intro h2
      have hnotplan : Action.execSetMultipleModifications ∉ (checkExecutionPlan b2).2.2 := by
        rcases checkExecutionPlan_trace b2 with h3 | h3 <;> rw [h3] <;> simp
      rcases writeEventsES_trace es b2 cmds2 with h3 | h3 | h3 | h3 <;> rw [h3] at h2
      · simp at h2
      · rcases List.mem_cons.mp h2 with h4 | h4
        · simp at h4
        · exact hnotplan h4
      · rcases List.mem_cons.mp h2 with h4 | h4
        · simp at h4
        · rcases List.mem_append.mp h4 with h5 | h5
          · exact hnotplan h5
          · simp at h5
      · rcases List.mem_cons.mp h2 with h4 | h4
        · simp at h4
        · rcases List.mem_append.mp h4 with h5 | h5
          · rcases List.mem_append.mp h5 with h6 | h6
            · exact hnotplan h6
            · simp at h6
          · exact hne (execSet_txBody_cockroach es b2 cmds2 h5)
    rcases Push_trace es b2 cmds2 with hp | hp <;> rw [hp] at h
    · exact hprim h
    · rcases List.mem_append.mp h with h4 | h4
      · exact hprim h4
      · simp at h4
  · intro hcr
    simp [Eventstore.writeEvents, txBody, writeEventsTx, afterFields,
      checkExecutionPlan, commandsToEvents,
      hconn, hreg, hbegin, hser, hq, hre, hu, hse, hf, hcm, hcr, hscan]
  · intro hcr
    simp [Eventstore.writeEvents, txBody, writeEventsTx, afterFields,
      checkExecutionPlan, commandsToEvents,
      hconn, hreg, hbegin, hser, hq, hre, hu, hse, hf, hcm, hcr, hscan]

/-- Witness for C7: on the non-cockroach backend the statement is
absent, and the benign trace is the expected one; the cockroach trace
is exercised with a separate concrete eventstore. -/
theorem C7_witness :
    Action.execSetMultipleModifications ∉
      (esPg.Push (benign [rowA]) [cmdA]).trace ∧
    (esCr.writeEvents (benign [rowA]) [cmdA]).trace =
      [Action.acquireConn, Action.probeTypeMap true,
       Action.beginTx .readCommitted false, Action.execQuery 1,
       Action.execUnique 1, Action.execSetMultipleModifications,
       Action.execFields 1, Action.commit] :=
  ⟨(C7_cockroach_accommodation esPg (benign [rowA]) [cmdA] [rowA]
      rfl rfl rfl rfl rfl rfl rfl rfl rfl rfl rfl).1 (benign [rowA]) [cmdA]
      (by simp [esPg]),
   (C7_cockroach_accommodation esCr (benign [rowA]) [cmdA] [rowA]
      rfl rfl rfl rfl rfl rfl rfl rfl rfl rfl rfl).2.1 rfl⟩

end Zitadel

namespace Zitadel

/-- Claim C8: every transaction is begun with isolation level read
committed and read-write mode — any `beginTx` recorded in any `Push`
trace carries exactly those options, and on the path where connection
and capability probe succeed the begin is issued with them; when
`BeginTx` fails the error is returned as-is with a `nil` event slice
and nothing after the begin is executed (the trace stops at the failed
begin: no insert, constraint or projection statement). -/
theorem C8_begin_readCommitted (es : Eventstore) (b : Backend) (cmds : List Command)
    (e : Err) (hconn : b.connErr = none) (hreg : b.typeRegistered = true) :
    (∀ (iso : Isolation) (ro : Bool), Action.beginTx iso ro ∈ (es.Push b cmds).trace →
      iso = Isolation.readCommitted ∧ ro = false) ∧
    (b.beginErr = none →
      Action.beginTx .readCommitted false ∈ (es.writeEvents b cmds).trace) ∧
    (b.beginErr = some e →
      (es.writeEvents b cmds).err = some e ∧
      (es.writeEvents b cmds).events = none ∧
      (es.writeEvents b cmds).trace =
        [Action.acquireConn, Action.probeTypeMap true,
         Action.beginTx .readCommitted false]) := by
  refine ⟨?_, ?_, ?_⟩
  · intro iso ro h
    rcases Push_trace es b cmds with hp | hp <;> rw [hp] at h
    · exact beginTx_in_writeEventsES es b cmds iso ro h
    · rcases List.mem_append.mp h with h4 | h4
      · exact beginTx_in_writeEventsES es b cmds iso ro h4
      · simp at h4
  · intro hbegin
    simp [Eventstore.writeEvents, checkExecutionPlan, hconn, hreg, hbegin]
  · intro hbegin
    refine ⟨?_, ?_, ?_⟩ <;>
      simp [Eventstore.writeEvents, checkExecutionPlan, hconn, hreg, hbegin]

/-- Witness for C8: on a backend whose `BeginTx` fails, the begin error
is returned with no step executed; on the benign backend the begin is
issued read-committed/read-write. -/
theorem C8_witness :
    Action.beginTx .readCommitted false ∈
      (esPg.writeEvents (benign [rowA]) [cmdA]).trace ∧
    (esPg.writeEvents { benign [rowA] with beginErr := some errX } [cmdA]).err =
      some errX ∧
    (esPg.writeEvents { benign [rowA] with beginErr := some errX } [cmdA]).trace =
      [Action.acquireConn, Action.probeTypeMap true,
       Action.beginTx .readCommitted false] :=
  ⟨(C8_begin_readCommitted esPg (benign [rowA]) [cmdA] errX rfl rfl).2.1 rfl,
   ((C8_begin_readCommitted esPg { benign [rowA] with beginErr := some errX }
      [cmdA] errX rfl rfl).2.2 rfl).1,
   ((C8_begin_readCommitted esPg { benign [rowA] with beginErr := some errX }
      [cmdA] errX rfl rfl).2.2 rfl).2.2⟩

end Zitadel

namespace Zitadel

/-- Claim C6: the capability probe is idempotent and precedes the
transaction begin. When the connection's type map already holds the
composite type the probe is a success no-op (no registration action);
any `Push` on such a connection performs no registration. When the type
is absent, registration runs, and a successful probe leaves the
connection capable, so a second `Push` on the probed connection
performs no registration either. Whenever a connection was acquired,
the probe actions form a prefix of the trace that contains no
transaction begin. -/
theorem C6_capability_probe (es : Eventstore) (b : Backend) (cmds : List Command) :
    (b.typeRegistered = true →
      checkExecutionPlan b = (none, true, [Action.probeTypeMap true])) ∧
    (b.typeRegistered = true → Action.registerTypes ∉ (es.Push b cmds).trace) ∧
    (b.typeRegistered = false → Action.registerTypes ∈ (checkExecutionPlan b).2.2) ∧
    (b.typeRegistered = false → b.registerErr = none →
      checkExecutionPlan b =
        (none, true, [Action.probeTypeMap false, Action.registerTypes])) ∧
    ((checkExecutionPlan b).1 = none →
      Action.registerTypes ∉ (es.Push b.afterProbe cmds).trace) ∧
    (b.connErr = none →
      ∃ rest, (es.writeEvents b cmds).trace =
        Action.acquireConn :: ((checkExecutionPlan b).2.2 ++ rest) ∧
        ∀ (iso : Isolation) (ro : Bool),
          Action.beginTx iso ro ∉ (checkExecutionPlan b).2.2) := by
  refine ⟨?_, ?_, ?_, ?_, ?_, ?_⟩
  · intro h
    simp [checkExecutionPlan, h]
  · intro h
    exact registerTypes_notin_push es b cmds h
  · intro h
    cases hr : b.registerErr <;> simp [checkExecutionPlan, h, hr]
  · intro h hr
    simp [checkExecutionPlan, h, hr]
  · intro h1
    have h21 : b.afterProbe.typeRegistered = true := by
      show (checkExecutionPlan b).2.1 = true
      by_cases hreg : b.typeRegistered = true
      · simp [checkExecutionPlan, hreg]
      · have hreg2 : b.typeRegistered = false := by simpa using hreg
        cases hr : b.registerErr
        · simp [checkExecutionPlan, hreg2, hr]
        · simp [checkExecutionPlan, hreg2, hr] at h1
    exact registerTypes_notin_push es b.afterProbe cmds h21
  · intro hconn
    have hplanmem : ∀ (iso : Isolation) (ro : Bool),
        Action.beginTx iso ro ∉ (checkExecutionPlan b).2.2 := by
      intro iso ro hmem
      rcases checkExecutionPlan_trace b with h3 | h3 <;> rw [h3] at hmem <;> simp at hmem
    unfold Eventstore.writeEvents
    simp only [hconn]
    split
    · next e snd ts heq =>
      refine ⟨[], ?_, hplanmem⟩
      rw [heq]
      simp
    · next snd ts heq =>
      split
      · refine ⟨[Action.beginTx .readCommitted false], ?_, hplanmem⟩
        rw [heq]
        simp
      · refine ⟨[Action.beginTx .readCommitted false] ++ (txBody es b cmds).trace,
          ?_, hplanmem⟩
        rw [heq]
        simp

/-- Witness for C6: the benign backend is already capable — the probe
is a no-op and the full push performs no registration; the probe prefix
precedes any begin. -/
theorem C6_witness :
    checkExecutionPlan (benign [rowA]) = (none, true, [Action.probeTypeMap true]) ∧
    Action.registerTypes ∉ (esPg.Push (benign [rowA]) [cmdA]).trace :=
  ⟨(C6_capability_probe esPg (benign [rowA]) [cmdA]).1 rfl,
   (C6_capability_probe esPg (benign [rowA]) [cmdA]).2.1 rfl⟩

end Zitadel
